import Mathlib

/-!
Verification of the Holdfast events-catalog core.

The development shallow-embeds the domain layer of the repository
(value objects, domain errors, domain entities) together with the store
interface, the read-through cache and the event service described by the
specification.  Machine integers are modelled as `Nat`/`Int`, Python
`Decimal` amounts as `ℚ`, `datetime` values as `Nat` timestamps, and
fallible constructors as `Option`/`Except`.
-/

namespace Holdfast

/-! ## Base-16 parsing (model of CPython `int(s, 16)`)

`uuid.UUID(hex=...)` delegates the final conversion to `int(hex, 16)`.
The model covers the documented grammar: surrounding ASCII whitespace, an
optional sign, an optional `0x`/`0X` base mark, and hexadecimal digits
optionally separated by single underscores.  (CPython additionally accepts
some Unicode whitespace and Unicode decimal digits; no claim involves such
characters.) -/

/-- Hexadecimal value of one digit character: `0`-`9`, `a`-`f`, `A`-`F`. -/
def hexVal? (c : Char) : Option Nat :=
  if '0' ≤ c ∧ c ≤ '9' then some (c.toNat - 48)
  else if 'a' ≤ c ∧ c ≤ 'f' then some (c.toNat - 87)
  else if 'A' ≤ c ∧ c ≤ 'F' then some (c.toNat - 55)
  else none

/-- ASCII whitespace stripped by `int(s, 16)` before parsing. -/
def isPyWs (c : Char) : Bool :=
  c = ' ' ∨ c = '\t' ∨ c = '\n' ∨ c = '\r' ∨ c = '\x0b' ∨ c = '\x0c'

/-- Curly-brace characters, stripped from both ends by
`hex.strip` in `uuid.UUID.__init__`. -/
def isBraceChar (c : Char) : Bool := c = '\x7b' ∨ c = '\x7d'

/-- Remove the longest run of characters satisfying `p` from the front. -/
def stripLeftWhile (p : Char → Bool) : List Char → List Char
  | [] => []
  | c :: rest => if p c then stripLeftWhile p rest else c :: rest

/-- Remove characters satisfying `p` from both ends (Python `str.strip`
with a character set). -/
def stripEnds (p : Char → Bool) (l : List Char) : List Char :=
  (stripLeftWhile p (stripLeftWhile p l).reverse).reverse

/-- Digit-and-underscore tail of a base-16 literal, `acc` being the value of
the digits consumed so far.  A single underscore may separate two digits;
a trailing or doubled underscore is an error. -/
def hexTail (acc : Nat) : List Char → Option Nat
  | [] => some acc
  | c :: rest =>
    if c = '_' then
      match rest with
      | [] => none
      | c2 :: rest2 =>
        match hexVal? c2 with
        | some v => hexTail (16 * acc + v) rest2
        | none => none
    else
      match hexVal? c with
      | some v => hexTail (16 * acc + v) rest
      | none => none

/-- Digit part of a base-16 literal: at least one digit, then `hexTail`. -/
def hexBody : List Char → Option Nat
  | [] => none
  | c :: rest =>
    match hexVal? c with
    | some v => hexTail v rest
    | none => none

/-- After a `0x` base mark one single underscore may precede the digits. -/
def hexAfterMark (l : List Char) : Option Nat :=
  if l.take 1 = ['_'] then hexBody (l.drop 1) else hexBody l

/-- Unsigned base-16 literal: optional `0x`/`0X` mark, then digits. -/
def hexUnsigned (l : List Char) : Option Nat :=
  if l.take 2 = ['0', 'x'] ∨ l.take 2 = ['0', 'X'] then hexAfterMark (l.drop 2)
  else hexBody l

/-- Model of CPython `int(s, 16)`: strip surrounding whitespace, optional
sign, optional base mark, digits with single separating underscores. -/
def pyIntHex16 (l : List Char) : Option Int :=
  let t := stripEnds isPyWs l
  if t.take 1 = ['+'] then (hexUnsigned (t.drop 1)).map (fun n => (n : Int))
  else if t.take 1 = ['-'] then (hexUnsigned (t.drop 1)).map (fun n => -(n : Int))
  else (hexUnsigned t).map (fun n => (n : Int))

/-! ## UUID string normalization (model of `uuid.UUID.__init__`, hex branch)

CPython: `hex = hex.replace('urn:', '').replace('uuid:', '')`, then
`hex = hex.strip('\x7b\x7d').replace('-', '')`, then the length must be 32
and the remainder is parsed by `int(hex, 16)`; the resulting integer must
lie in `[0, 2^128)`. -/

/-- Left-to-right removal of every occurrence of the four characters
`urn:` (Python `str.replace("urn:", "")`). -/
def removeUrn : List Char → List Char
  | 'u' :: 'r' :: 'n' :: ':' :: rest => removeUrn rest
  | c :: rest => c :: removeUrn rest
  | [] => []

/-- Left-to-right removal of every occurrence of the five characters
`uuid:` (Python `str.replace("uuid:", "")`). -/
def removeUuid : List Char → List Char
  | 'u' :: 'u' :: 'i' :: 'd' :: ':' :: rest => removeUuid rest
  | c :: rest => c :: removeUuid rest
  | [] => []

/-- The full string normalization performed by `uuid.UUID.__init__` before
the length check: drop `urn:` and `uuid:` occurrences, strip curly braces
from both ends, remove every hyphen. -/
def uuidNormalize (l : List Char) : List Char :=
  (stripEnds isBraceChar (removeUuid (removeUrn l))).filter (fun c => c != '-')

/-- Model of `uuid.UUID(hex=...)`: the normalized string must have exactly
32 characters and parse as a base-16 integer in `[0, 2^128)`.  The result
is the 128-bit integer value of the UUID (`UUID.int`). -/
def uuidFromChars (l : List Char) : Option Nat :=
  let h := uuidNormalize l
  if h.length = 32 then
    match pyIntHex16 h with
    | some i => if 0 ≤ i ∧ i < 2 ^ 128 then some i.toNat else none
    | none => none
  else none

/-- A string is accepted by the UUID constructor iff parsing succeeds. -/
def uuidAccepted (s : String) : Bool := (uuidFromChars s.data).isSome

/-! ## Canonical UUID rendering (`str(uuid.UUID(...))`) -/

/-- Lowercase hexadecimal digit character of a value `k < 16`; for `k < 10`
this is also the decimal digit character. -/
def lowerHexChar (k : Nat) : Char :=
  if k < 10 then Char.ofNat (48 + k) else Char.ofNat (87 + k)

/-- Uppercase hexadecimal digit character of a value `k < 16`. -/
def upperHexChar (k : Nat) : Char :=
  if k < 10 then Char.ofNat (48 + k) else Char.ofNat (55 + k)

/-- `len` base-16 digits of `n`, most significant first, rendered with the
digit-character function `f`. -/
def toHexDigitsWith (f : Nat → Char) : Nat → Nat → List Char
  | _, 0 => []
  | n, len + 1 => toHexDigitsWith f (n / 16) len ++ [f (n % 16)]

/-- The 32 hexadecimal digits of a 128-bit value, split as the five
canonical groups 8-4-4-4-12 (without hyphens). -/
def uuidDigitGroups (f : Nat → Char) (n : Nat) : List Char :=
  toHexDigitsWith f (n / 16 ^ 24) 8 ++
    (toHexDigitsWith f (n / 16 ^ 20 % 16 ^ 4) 4 ++
      (toHexDigitsWith f (n / 16 ^ 16 % 16 ^ 4) 4 ++
        (toHexDigitsWith f (n / 16 ^ 12 % 16 ^ 4) 4 ++
          toHexDigitsWith f (n % 16 ^ 12) 12)))

/-- The canonical hyphenated 8-4-4-4-12 spelling of a 128-bit UUID value,
with digit characters drawn from `f`. -/
def uuidCanonicalWith (f : Nat → Char) (n : Nat) : List Char :=
  toHexDigitsWith f (n / 16 ^ 24) 8 ++ '-' ::
    (toHexDigitsWith f (n / 16 ^ 20 % 16 ^ 4) 4 ++ '-' ::
      (toHexDigitsWith f (n / 16 ^ 16 % 16 ^ 4) 4 ++ '-' ::
        (toHexDigitsWith f (n / 16 ^ 12 % 16 ^ 4) 4 ++ '-' ::
          toHexDigitsWith f (n % 16 ^ 12) 12)))

/-- Canonical lowercase hyphenated UUID string (`str(uuid.UUID(...))`),
the `event_id` spelling used in cache keys. -/
def uuidCanonicalString (n : Nat) : String :=
  String.mk (uuidCanonicalWith lowerHexChar n)

/-! ## Value objects (src/django-api/events/domain/value_objects.py) -/

/-- `EventId` wraps a `uuid.UUID`, represented by its 128-bit integer
value. -/
structure EventId where
  value : Nat
deriving DecidableEq, Repr

/-- `EventId.from_string`: `cls(value=UUID(value))`; a `ValueError` raised
by the `UUID` constructor is modelled as `none`. -/
def EventId.from_string (s : String) : Option EventId :=
  (uuidFromChars s.data).map EventId.mk

/-- `SessionId` wraps a `uuid.UUID`. -/
structure SessionId where
  value : Nat
deriving DecidableEq, Repr

/-- `SessionId.from_string`: `cls(value=UUID(value))`. -/
def SessionId.from_string (s : String) : Option SessionId :=
  (uuidFromChars s.data).map SessionId.mk

/-- `TicketTypeId` wraps a `uuid.UUID`. -/
structure TicketTypeId where
  value : Nat
deriving DecidableEq, Repr

/-- `TicketTypeId.from_string`: `cls(value=UUID(value))`. -/
def TicketTypeId.from_string (s : String) : Option TicketTypeId :=
  (uuidFromChars s.data).map TicketTypeId.mk

/-- `Money` wraps a decimal amount; Python `Decimal` values are exact
rationals, modelled over `ℚ`. -/
structure Money where
  amount : ℚ
deriving DecidableEq, Repr

/-- `Money(amount)` construction: `__post_init__` raises `ValueError` when
`amount < 0`. -/
def Money.make (amount : ℚ) : Except String Money :=
  if amount < 0 then .error "Money amount cannot be negative" else .ok ⟨amount⟩

/-- Round-half-even to an integer: the `ROUND_HALF_EVEN` rounding used by
`Decimal` fixed-point formatting. -/
def roundHalfEven (v : ℚ) : ℤ :=
  let f := v.floor
  let r := v - (f : ℚ)
  if r < 1 / 2 then f
  else if 1 / 2 < r then f + 1
  else if f % 2 = 0 then f else f + 1

/-- Decimal digit characters of `n`, most significant first, with enough
fuel to consume every digit. -/
def natToCharsAux : Nat → Nat → List Char
  | _, 0 => []
  | n, fuel + 1 =>
    if n < 10 then [lowerHexChar n]
    else natToCharsAux (n / 10) fuel ++ [lowerHexChar (n % 10)]

/-- Decimal digit characters of `n`, most significant first. -/
def natToChars (n : Nat) : List Char := natToCharsAux n (n + 1)

/-- `Money.__str__`: the f-string `.2f` fixed-point rendering, which
quantizes the amount half-even to hundredths and prints the integer part,
a point, and exactly two fractional digit characters.  (Stated for the
non-negative amounts the `Money` invariant guarantees; Python would render
a sign for negative amounts.) -/
def Money.toString (m : Money) : String :=
  let cents := (roundHalfEven (m.amount * 100)).toNat
  String.mk (natToChars (cents / 100) ++
    '.' :: [lowerHexChar (cents / 10 % 10), lowerHexChar (cents % 10)])

/-- `Capacity` wraps an integer. -/
structure Capacity where
  value : ℤ
deriving DecidableEq, Repr

/-- `Capacity(value)` construction: `__post_init__` raises `ValueError`
when `value < 0`. -/
def Capacity.make (value : ℤ) : Except String Capacity :=
  if value < 0 then .error "Capacity cannot be negative" else .ok ⟨value⟩

/-! ## Domain errors (src/django-api/events/domain/errors.py) -/

/-- The closed enumeration of domain error codes. -/
inductive ErrorCode where
  | EVENT_NOT_FOUND
  | SESSION_NOT_FOUND
  | INVALID_EVENT_ID
deriving DecidableEq, Repr

/-- Base domain error value: a code and a user-safe message. -/
structure DomainError where
  code : ErrorCode
  message : String
deriving DecidableEq, Repr

/-- The `message` argument `EventNotFoundError.__init__` passes to the base
class.  In the source it is the f-string `f"Event not found"`, which has no
placeholder, so the text is the same for every `event_id`. -/
def eventNotFoundMessage (_event_id : String) : String := "Event not found"

/-- The `message` argument `SessionNotFoundError.__init__` passes to the
base class (again an f-string with no placeholder). -/
def sessionNotFoundMessage (_event_id : String) : String :=
  "Sessions not found for event"

/-- The `message` argument `InvalidEventIdError.__init__` passes to the
base class. -/
def invalidEventIdMessage : String := "Invalid event ID format"

/-! ### Python attribute-assignment model for the error constructors

`DomainError` is declared `@dataclass(frozen=True)`; its subclasses define
plain `__init__` methods that call the generated dataclass `__init__` and
then assign `self.event_id`.  The generated frozen `__setattr__`
(CPython `dataclasses._frozen_get_del_attr`) raises `FrozenInstanceError`
when `type(self) is cls or name in fields`, and otherwise delegates to
`object.__setattr__`. -/

/-- A Python attribute value occurring in the error objects. -/
inductive PyVal where
  | strV : String → PyVal
  | codeV : ErrorCode → PyVal
deriving DecidableEq, Repr

/-- The Python exception relevant to frozen-dataclass assignment. -/
inductive PyExn where
  | frozenInstanceError
deriving DecidableEq, Repr

/-- The attribute dictionary of one Python object, most recent binding
first. -/
abbrev PyObj := List (String × PyVal)

/-- `object.__setattr__`: unconditionally bind the attribute. -/
def objectSetattr (o : PyObj) (n : String) (v : PyVal) : PyObj :=
  (n, v) :: o.filter (fun p => p.1 != n)

/-- The `__setattr__` generated by `@dataclass(frozen=True)`: raise
`FrozenInstanceError` when the instance's exact type is the declaring class
or the attribute is one of the dataclass fields; otherwise fall through to
`object.__setattr__`. -/
def frozenSetattr (typeIsDeclaringClass : Bool) (fields : List String)
    (o : PyObj) (n : String) (v : PyVal) : Except PyExn PyObj :=
  if typeIsDeclaringClass || fields.contains n then .error .frozenInstanceError
  else .ok (objectSetattr o n v)

/-- The dataclass fields of `DomainError`. -/
def domainErrorFields : List String := ["code", "message"]

/-- The `__init__` generated for the frozen dataclass `DomainError`: field
values are bound through `object.__setattr__`, so freezing does not block
them. -/
def DomainError.pyInit (code : ErrorCode) (message : String) : PyObj :=
  objectSetattr (objectSetattr [] "code" (.codeV code)) "message" (.strV message)

/-- `EventNotFoundError(event_id)`: the dataclass `__init__` runs via
`super().__init__`, then the subclass body executes
`self.event_id = event_id` through the inherited frozen `__setattr__`;
the exact type is the subclass (not `DomainError`) and `event_id` is not a
dataclass field. -/
def eventNotFoundNew (event_id : String) : Except PyExn PyObj :=
  frozenSetattr false domainErrorFields
    (DomainError.pyInit .EVENT_NOT_FOUND (eventNotFoundMessage event_id))
    "event_id" (.strV event_id)

/-- `SessionNotFoundError(event_id)`: same construction shape as
`EventNotFoundError`. -/
def sessionNotFoundNew (event_id : String) : Except PyExn PyObj :=
  frozenSetattr false domainErrorFields
    (DomainError.pyInit .SESSION_NOT_FOUND (sessionNotFoundMessage event_id))
    "event_id" (.strV event_id)

/-- `InvalidEventIdError()`: only the dataclass `__init__` runs; no extra
attribute assignment. -/
def invalidEventIdNew : Except PyExn PyObj :=
  .ok (DomainError.pyInit .INVALID_EVENT_ID invalidEventIdMessage)

/-! ## Domain entities (src/django-api/events/domain/models.py)

`datetime` fields are modelled as `Nat` timestamps. -/

/-- Domain representation of an Event. -/
structure Event where
  id : EventId
  name : String
  description : String
  location : String
  image_url : Option String
  created_at : Nat
  updated_at : Nat
deriving DecidableEq, Repr

/-- Domain representation of a TicketType. -/
structure TicketType where
  id : TicketTypeId
  session_id : SessionId
  name : String
  price : Money
  quantity : Capacity
  created_at : Nat
deriving DecidableEq, Repr

/-- Domain representation of a Session. -/
structure Session where
  id : SessionId
  event_id : EventId
  starts_at : Nat
  ends_at : Nat
  total_capacity : Capacity
  created_at : Nat
  ticket_types : List TicketType
deriving DecidableEq, Repr

/-! ## Store (src/django-api/events/stores/interfaces.py) -/

/-- The `EventStore` interface: the four read operations, as a structure of
functions.  No operation raises domain errors; absence is signalled by
`none`/`false`. -/
structure EventStore where
  list_events : List Event
  get_event : EventId → Option Event
  get_sessions_for_event : EventId → List Session
  event_exists : EventId → Bool

/-- Insert an event into a list sorted by `created_at` descending. -/
def insertByCreatedDesc (e : Event) : List Event → List Event
  | [] => [e]
  | x :: xs =>
    if x.created_at ≤ e.created_at then e :: x :: xs
    else x :: insertByCreatedDesc e xs

/-- Sort events by `created_at` descending (insertion sort). -/
def sortByCreatedDesc (l : List Event) : List Event :=
  l.foldr insertByCreatedDesc []

/-- Insert a session into a list sorted by `starts_at` ascending. -/
def insertByStartsAsc (s : Session) : List Session → List Session
  | [] => [s]
  | x :: xs =>
    if s.starts_at ≤ x.starts_at then s :: x :: xs
    else x :: insertByStartsAsc s xs

/-- Sort sessions by `starts_at` ascending (insertion sort). -/
def sortByStartsAsc (l : List Session) : List Session :=
  l.foldr insertByStartsAsc []

/-- Modelled from the spec: the in-memory `EventStore` double of §4.4/§9 —
`DjangoEventStore` in src/django-api/events/stores/django_store.py is an
unimplemented TODO stub.  `list_events` is ordered by `created_at`
descending and `get_sessions_for_event` by `starts_at` ascending, as the
interface contract requires. -/
def mkStore (events : List Event) (sessions : List Session) : EventStore where
  list_events := sortByCreatedDesc events
  get_event := fun i => events.find? (fun e => e.id == i)
  get_sessions_for_event := fun i =>
    sortByStartsAsc (sessions.filter (fun s => s.event_id == i))
  event_exists := fun i => (events.find? (fun e => e.id == i)).isSome

/-! ## Cache (spec §4.5)

Modelled from the spec: no cache component exists under src — the service
and handlers that would use it are TODO stubs.  The cache is a key-value
store over string keys; `set` adds a most-recent binding, `get` reads the
most recent binding, `invalidate` removes every binding of the key. -/

/-- A cached value: a single event, the event list, or a session list. -/
inductive CacheValue where
  | eventV : Event → CacheValue
  | eventListV : List Event → CacheValue
  | sessionsV : List Session → CacheValue
deriving DecidableEq, Repr

/-- Modelled from the spec: the process-visible key-value cache (§4.5). -/
abbrev Cache := List (String × CacheValue)

/-- `Cache.get`: most recent binding of the key, or a miss. -/
def cacheGet (c : Cache) (k : String) : Option CacheValue :=
  (c.find? (fun p => p.1 == k)).map (fun p => p.2)

/-- `Cache.set`: bind the key to the value. -/
def cacheSet (c : Cache) (k : String) (v : CacheValue) : Cache :=
  (k, v) :: c

/-- `Cache.invalidate`: remove every binding of the key. -/
def cacheInvalidate (c : Cache) (k : String) : Cache :=
  c.filter (fun p => p.1 != k)

/-- Cache key `events:list` (spec §6). -/
def listKey : String := "events:list"

/-- Cache key `events:` followed by the canonical lowercase hyphenated
UUID string of the event id (spec §6). -/
def eventKey (i : EventId) : String :=
  "events:" ++ uuidCanonicalString i.value

/-- Cache key `events:` ++ canonical id ++ `:sessions` (spec §6). -/
def sessionsKey (i : EventId) : String :=
  "events:" ++ uuidCanonicalString i.value ++ ":sessions"

/-! ## Event service (spec §4.6)

Modelled from the spec: every method of `EventService` in
src/django-api/events/services/event_service.py is an unimplemented TODO
stub (`raise NotImplementedError`).  Each operation takes the store and the
current cache and returns the typed result together with the new cache.
A cached value of an unexpected shape is treated as a miss. -/

namespace EventService

/-- Modelled from the spec: `list_events` — read-through over the cache key
`events:list`; on a miss the store result (already ordered by the store
contract) populates the cache. -/
def list_events (store : EventStore) (cache : Cache) :
    Except DomainError (List Event) × Cache :=
  match cacheGet cache listKey with
  | some (.eventListV l) => (.ok l, cache)
  | _ =>
    (.ok store.list_events, cacheSet cache listKey (.eventListV store.list_events))

/-- Modelled from the spec: `get_event(raw_id)` — parse `raw_id` into an
`EventId` (failure maps to `INVALID_EVENT_ID`); read-through over
`events:ID`; an absent store result maps to `EVENT_NOT_FOUND`. -/
def get_event (raw_id : String) (store : EventStore) (cache : Cache) :
    Except DomainError Event × Cache :=
  match EventId.from_string raw_id with
  | none => (.error ⟨.INVALID_EVENT_ID, invalidEventIdMessage⟩, cache)
  | some i =>
    match cacheGet cache (eventKey i) with
    | some (.eventV e) => (.ok e, cache)
    | _ =>
      match store.get_event i with
      | none => (.error ⟨.EVENT_NOT_FOUND, eventNotFoundMessage raw_id⟩, cache)
      | some e => (.ok e, cacheSet cache (eventKey i) (.eventV e))

/-- Modelled from the spec: `get_sessions_for_event(raw_id)` — parse as in
`get_event`; verify existence via `Store.event_exists` (failure maps to
`EVENT_NOT_FOUND`; an existing event with zero sessions is a valid empty
result); then read-through over `events:ID:sessions`. -/
def get_sessions_for_event (raw_id : String) (store : EventStore)
    (cache : Cache) : Except DomainError (List Session) × Cache :=
  match EventId.from_string raw_id with
  | none => (.error ⟨.INVALID_EVENT_ID, invalidEventIdMessage⟩, cache)
  | some i =>
    if store.event_exists i then
      match cacheGet cache (sessionsKey i) with
      | some (.sessionsV l) => (.ok l, cache)
      | _ =>
        (.ok (store.get_sessions_for_event i),
          cacheSet cache (sessionsKey i) (.sessionsV (store.get_sessions_for_event i)))
    else (.error ⟨.EVENT_NOT_FOUND, eventNotFoundMessage raw_id⟩, cache)

end EventService

/-- Modelled from the spec: the Invalidation Trigger row for Event
mutations (§4.7) — `invalidate_event_cache` in
src/django-api/events/signals.py is an empty TODO stub.  On any
create/update/delete of the Event with id `E`, invalidate `events:list`
and `events:E`. -/
def invalidateEventTrigger (E : EventId) (c : Cache) : Cache :=
  cacheInvalidate (cacheInvalidate c listKey) (eventKey E)

/-! ## Lemmas: hexadecimal digits and rendering -/

/-- Reference fold for a run of plain hexadecimal digits. -/
def parseHexAux (acc : Nat) : List Char → Option Nat
  | [] => some acc
  | c :: rest =>
    match hexVal? c with
    | some v => parseHexAux (16 * acc + v) rest
    | none => none

theorem parseHexAux_append (l1 l2 : List Char) (acc : Nat) :
    parseHexAux acc (l1 ++ l2) =
      (parseHexAux acc l1).bind fun m => parseHexAux m l2 := by
  induction l1 generalizing acc with
  | nil => simp [parseHexAux]
  | cons c rest ih =>
    simp only [List.cons_append, parseHexAux]
    cases hexVal? c with
    | none => simp
    | some v => simp [ih]

/-- The character facts needed of a hexadecimal digit-rendering function:
it parses back to the same value and is none of the characters that the
UUID normalization or the integer parser treats specially. -/
def goodHexFn (f : Nat → Char) : Prop :=
  ∀ k, k < 16 → hexVal? (f k) = some k ∧ f k ≠ '-' ∧ f k ≠ 'u' ∧
    f k ≠ '\x7b' ∧ f k ≠ '\x7d' ∧ isPyWs (f k) = false ∧ f k ≠ '_' ∧
    f k ≠ '+' ∧ f k ≠ 'x' ∧ f k ≠ 'X'

theorem goodHexFn_lower : goodHexFn lowerHexChar := by
  unfold goodHexFn; decide

theorem goodHexFn_upper : goodHexFn upperHexChar := by
  unfold goodHexFn; decide

theorem mem_toHexDigitsWith {f : Nat → Char} {n len : Nat} {c : Char}
    (h : c ∈ toHexDigitsWith f n len) : ∃ k, k < 16 ∧ c = f k := by
  induction len generalizing n with
  | zero => simp [toHexDigitsWith] at h
  | succ len ih =>
    simp only [toHexDigitsWith, List.mem_append, List.mem_singleton] at h
    rcases h with h | h
    · exact ih h
    · exact ⟨n % 16, Nat.mod_lt _ (by omega), h⟩

theorem length_toHexDigitsWith (f : Nat → Char) (n len : Nat) :
    (toHexDigitsWith f n len).length = len := by
  induction len generalizing n with
  | zero => rfl
  | succ len ih => simp [toHexDigitsWith, ih]

theorem parseHexAux_toHexDigitsWith {f : Nat → Char}
    (hf : ∀ k, k < 16 → hexVal? (f k) = some k) (len : Nat) :
    ∀ n acc, parseHexAux acc (toHexDigitsWith f n len) =
      some (acc * 16 ^ len + n % 16 ^ len) := by
  induction len with
  | zero => intro n acc; simp [toHexDigitsWith, parseHexAux, Nat.mod_one]
  | succ len ih =>
    intro n acc
    rw [toHexDigitsWith, parseHexAux_append, ih]
    have hv : hexVal? (f (n % 16)) = some (n % 16) :=
      hf (n % 16) (Nat.mod_lt _ (by omega))
    simp only [Option.some_bind, parseHexAux, hv]
    have : n % 16 ^ (len + 1) = 16 * (n / 16 % 16 ^ len) + n % 16 := by
      rw [pow_succ, mul_comm (16 ^ len) 16, Nat.mod_mul]; ring
    rw [this]; ring_nf

/-- Characters of the digit groups of a UUID value. -/
theorem mem_uuidDigitGroups {f : Nat → Char} {n : Nat} {c : Char}
    (h : c ∈ uuidDigitGroups f n) : ∃ k, k < 16 ∧ c = f k := by
  simp only [uuidDigitGroups, List.mem_append] at h
  rcases h with h | h | h | h | h <;> exact mem_toHexDigitsWith h

/-- Characters of the canonical spelling of a UUID value. -/
theorem mem_uuidCanonicalWith {f : Nat → Char} {n : Nat} {c : Char}
    (h : c ∈ uuidCanonicalWith f n) : c = '-' ∨ ∃ k, k < 16 ∧ c = f k := by
  simp only [uuidCanonicalWith, List.mem_append, List.mem_cons] at h
  rcases h with h | h | h | h | h | h | h | h | h <;>
    first
      | (left; exact h)
      | (right; exact mem_toHexDigitsWith h)

theorem length_uuidDigitGroups (f : Nat → Char) (n : Nat) :
    (uuidDigitGroups f n).length = 32 := by
  simp [uuidDigitGroups, length_toHexDigitsWith]

/-- Parsing the 32 digits of a 128-bit value recovers the value. -/
theorem parseHexAux_uuidDigitGroups {f : Nat → Char}
    (hf : ∀ k, k < 16 → hexVal? (f k) = some k) {n : Nat} (hn : n < 2 ^ 128) :
    parseHexAux 0 (uuidDigitGroups f n) = some n := by
  have h1632 : (16 : Nat) ^ 32 = 2 ^ 128 := by norm_num
  have step : ∀ m : Nat, n / (m * 16 ^ 4) * 16 ^ 4 + n / m % 16 ^ 4 = n / m := by
    intro m
    rw [← Nat.div_div_eq_div_mul]
    exact Nat.div_add_mod' (n / m) (16 ^ 4)
  have hmod : ∀ x y : Nat, 0 < y → x % y % y = x % y := fun x y hy =>
    Nat.mod_eq_of_lt (Nat.mod_lt _ hy)
  simp only [uuidDigitGroups]
  rw [parseHexAux_append, parseHexAux_toHexDigitsWith hf, Option.some_bind,
    parseHexAux_append, parseHexAux_toHexDigitsWith hf, Option.some_bind,
    parseHexAux_append, parseHexAux_toHexDigitsWith hf, Option.some_bind,
    parseHexAux_append, parseHexAux_toHexDigitsWith hf, Option.some_bind,
    parseHexAux_toHexDigitsWith hf]
  have hq : n / 16 ^ 24 % 16 ^ 8 = n / 16 ^ 24 := by
    apply Nat.mod_eq_of_lt
    apply Nat.div_lt_of_lt_mul
    calc n < 2 ^ 128 := hn
    _ = 16 ^ 24 * 16 ^ 8 := by norm_num
  rw [hq]
  rw [hmod _ _ (by positivity), hmod _ _ (by positivity), hmod _ _ (by positivity)]
  rw [Nat.zero_mul, Nat.zero_add]
  have e1 : n / 16 ^ 24 * 16 ^ 4 + n / 16 ^ 20 % 16 ^ 4 = n / 16 ^ 20 := by
    have := step (16 ^ 20); rw [show (16:Nat) ^ 20 * 16 ^ 4 = 16 ^ 24 by norm_num] at this
    exact this
  have e2 : n / 16 ^ 20 * 16 ^ 4 + n / 16 ^ 16 % 16 ^ 4 = n / 16 ^ 16 := by
    have := step (16 ^ 16); rw [show (16:Nat) ^ 16 * 16 ^ 4 = 16 ^ 20 by norm_num] at this
    exact this
  have e3 : n / 16 ^ 16 * 16 ^ 4 + n / 16 ^ 12 % 16 ^ 4 = n / 16 ^ 12 := by
    have := step (16 ^ 12); rw [show (16:Nat) ^ 12 * 16 ^ 4 = 16 ^ 16 by norm_num] at this
    exact this
  have e4 : n / 16 ^ 12 * 16 ^ 12 + n % 16 ^ 12 = n := Nat.div_add_mod' n (16 ^ 12)
  rw [e1, e2, e3]
  rw [show n % 16 ^ 12 % 16 ^ 12 = n % 16 ^ 12 from hmod _ _ (by positivity)]
  rw [e4]

/-! ## Lemmas: UUID normalization on well-behaved inputs -/

/-- The one-step unfolding of `removeUrn` as a conditional equation. -/
theorem removeUrn_cons (c : Char) (rest : List Char) :
    removeUrn (c :: rest) =
      if c = 'u' ∧ rest.take 3 = ['r', 'n', ':'] then removeUrn (rest.drop 3)
      else c :: removeUrn rest := by
  rw [removeUrn.eq_def]
  split
  · rename_i rest1 heq
    simp only [List.cons.injEq] at heq
    obtain ⟨rfl, rfl⟩ := heq
    rw [if_pos (by simp)]
    simp [List.drop]
  · rename_i h1 h2
    simp only [List.cons.injEq] at h2
    obtain ⟨rfl, rfl⟩ := h2
    rw [if_neg]
    intro hand
    have hr : rest = 'r' :: 'n' :: ':' :: rest.drop 3 := by
      conv_lhs => rw [← List.take_append_drop 3 rest]
      rw [hand.2]
      rfl
    exact h1 (rest.drop 3) hand.1 hr
  · rename_i h
    simp at h

/-- The one-step unfolding of `removeUuid` as a conditional equation. -/
theorem removeUuid_cons (c : Char) (rest : List Char) :
    removeUuid (c :: rest) =
      if c = 'u' ∧ rest.take 4 = ['u', 'i', 'd', ':'] then removeUuid (rest.drop 4)
      else c :: removeUuid rest := by
  rw [removeUuid.eq_def]
  split
  · rename_i rest1 heq
    simp only [List.cons.injEq] at heq
    obtain ⟨rfl, rfl⟩ := heq
    rw [if_pos (by simp)]
    simp [List.drop]
  · rename_i h1 h2
    simp only [List.cons.injEq] at h2
    obtain ⟨rfl, rfl⟩ := h2
    rw [if_neg]
    intro hand
    have hr : rest = 'u' :: 'i' :: 'd' :: ':' :: rest.drop 4 := by
      conv_lhs => rw [← List.take_append_drop 4 rest]
      rw [hand.2]
      rfl
    exact h1 (rest.drop 4) hand.1 hr
  · rename_i h
    simp at h

theorem removeUrn_eq_self {l : List Char} (h : 'u' ∉ l) : removeUrn l = l := by
  induction l with
  | nil => rfl
  | cons c rest ih =>
    have hc : c ≠ 'u' := fun hc => h (hc ▸ List.mem_cons_self c rest)
    rw [removeUrn_cons, if_neg (by simp [hc]),
      ih fun hm => h (List.mem_cons_of_mem c hm)]

theorem removeUuid_eq_self {l : List Char} (h : 'u' ∉ l) : removeUuid l = l := by
  induction l with
  | nil => rfl
  | cons c rest ih =>
    have hc : c ≠ 'u' := fun hc => h (hc ▸ List.mem_cons_self c rest)
    rw [removeUuid_cons, if_neg (by simp [hc]),
      ih fun hm => h (List.mem_cons_of_mem c hm)]

theorem stripLeftWhile_eq_self {p : Char → Bool} {l : List Char}
    (h : ∀ c ∈ l, p c = false) : stripLeftWhile p l = l := by
  cases l with
  | nil => rfl
  | cons c rest => simp [stripLeftWhile, h c (List.mem_cons_self c rest)]

theorem stripEnds_eq_self {p : Char → Bool} {l : List Char}
    (h : ∀ c ∈ l, p c = false) : stripEnds p l = l := by
  rw [stripEnds, stripLeftWhile_eq_self h,
    stripLeftWhile_eq_self fun c hc => h c (List.mem_reverse.mp hc),
    List.reverse_reverse]

theorem stripLeftWhile_append_eq_self {p : Char → Bool} {mid tail : List Char}
    (hne : mid ≠ []) (h : ∀ c ∈ mid, p c = false) :
    stripLeftWhile p (mid ++ tail) = mid ++ tail := by
  obtain ⟨c, mid2, rfl⟩ := List.exists_cons_of_ne_nil hne
  simp [stripLeftWhile, h c (List.mem_cons_self c mid2)]

/-- Normalizing the canonical spelling yields exactly its 32 digits. -/
theorem uuidNormalize_canonical {f : Nat → Char} (hf : goodHexFn f) (n : Nat) :
    uuidNormalize (uuidCanonicalWith f n) = uuidDigitGroups f n := by
  have hnu : 'u' ∉ uuidCanonicalWith f n := by
    intro hm
    rcases mem_uuidCanonicalWith hm with h | ⟨k, hk, hke⟩
    · exact absurd h (by decide)
    · exact (hf k hk).2.2.1 hke.symm
  have hnb : ∀ c ∈ uuidCanonicalWith f n, isBraceChar c = false := by
    intro c hc
    rcases mem_uuidCanonicalWith hc with h | ⟨k, hk, hke⟩
    · subst h; decide
    · subst hke
      obtain ⟨-, -, -, h4, h5, -⟩ := hf k hk
      simp [isBraceChar, h4, h5]
  have hg : ∀ m len : Nat,
      (toHexDigitsWith f m len).filter (fun c => c != '-') =
        toHexDigitsWith f m len := by
    intro m len
    apply List.filter_eq_self.mpr
    intro c hc
    obtain ⟨k, hk, rfl⟩ := mem_toHexDigitsWith hc
    simpa using (hf k hk).2.1
  rw [uuidNormalize, removeUrn_eq_self hnu, removeUuid_eq_self hnu,
    stripEnds_eq_self hnb]
  simp [uuidCanonicalWith, uuidDigitGroups, List.filter_append, hg]

/-! ## Lemmas: the base-16 parser on pure digit runs -/

theorem hexTail_eq_parseHexAux {l : List Char}
    (h : ∀ c ∈ l, (hexVal? c).isSome) (acc : Nat) :
    hexTail acc l = parseHexAux acc l := by
  induction l generalizing acc with
  | nil => rfl
  | cons c rest ih =>
    have hc : (hexVal? c).isSome := h c (List.mem_cons_self c rest)
    have hcne : c ≠ '_' := by
      intro hcu
      rw [hcu, show hexVal? '_' = none from by decide] at hc
      simp at hc
    obtain ⟨v, hv⟩ := Option.isSome_iff_exists.mp hc
    rw [hexTail.eq_def]
    simp only [parseHexAux, if_neg hcne, hv]
    exact ih (fun c hc => h c (List.mem_cons_of_mem _ hc)) _

theorem hexBody_eq_parseHexAux {l : List Char} (hne : l ≠ [])
    (h : ∀ c ∈ l, (hexVal? c).isSome) : hexBody l = parseHexAux 0 l := by
  obtain ⟨c, rest, rfl⟩ := List.exists_cons_of_ne_nil hne
  obtain ⟨v, hv⟩ := Option.isSome_iff_exists.mp (h c (List.mem_cons_self c rest))
  simp only [hexBody, parseHexAux, hv]
  rw [hexTail_eq_parseHexAux fun c hc => h c (List.mem_cons_of_mem _ hc)]
  norm_num

/-- The full base-16 integer parser on the 32 digits of a 128-bit value. -/
theorem pyIntHex16_digits {f : Nat → Char} (hf : goodHexFn f) {n : Nat}
    (hn : n < 2 ^ 128) :
    pyIntHex16 (uuidDigitGroups f n) = some (n : Int) := by
  have hmem : ∀ c ∈ uuidDigitGroups f n, ∃ k, k < 16 ∧ c = f k :=
    fun _ hc => mem_uuidDigitGroups hc
  have hws : ∀ c ∈ uuidDigitGroups f n, isPyWs c = false := by
    intro c hc
    obtain ⟨k, hk, rfl⟩ := hmem c hc
    exact (hf k hk).2.2.2.2.2.1
  have hne_of : ∀ (x : Char), (∀ k, k < 16 → f k ≠ x) →
      ∀ m : Nat, (uuidDigitGroups f n).take m ≠ [x] ∧
        (uuidDigitGroups f n).take m ≠ ['0', x] := by
    intro x hx m
    constructor
    · intro he
      have hxm : x ∈ (uuidDigitGroups f n).take m := by rw [he]; simp
      obtain ⟨k, hk, hke⟩ := hmem _ (List.take_subset _ _ hxm)
      exact hx k hk hke.symm
    · intro he
      have hxm : x ∈ (uuidDigitGroups f n).take m := by rw [he]; simp
      obtain ⟨k, hk, hke⟩ := hmem _ (List.take_subset _ _ hxm)
      exact hx k hk hke.symm
  have hplus := (hne_of '+' (fun k hk => (hf k hk).2.2.2.2.2.2.2.1) 1).1
  have hminus := (hne_of '-' (fun k hk => (hf k hk).2.1) 1).1
  have hx := (hne_of 'x' (fun k hk => (hf k hk).2.2.2.2.2.2.2.2.1) 2).2
  have hX := (hne_of 'X' (fun k hk => (hf k hk).2.2.2.2.2.2.2.2.2) 2).2
  have hdig : ∀ c ∈ uuidDigitGroups f n, (hexVal? c).isSome := by
    intro c hc
    obtain ⟨k, hk, rfl⟩ := hmem c hc
    rw [(hf k hk).1]; rfl
  have hlen : uuidDigitGroups f n ≠ [] := by
    intro he
    have := length_uuidDigitGroups f n
    rw [he] at this
    simp at this
  rw [pyIntHex16]
  simp only [stripEnds_eq_self hws]
  rw [if_neg hplus, if_neg hminus, hexUnsigned, if_neg (by push_neg; exact ⟨hx, hX⟩)]
  rw [hexBody_eq_parseHexAux hlen hdig,
    parseHexAux_uuidDigitGroups (fun k hk => (hf k hk).1) hn]
  rfl

/-- Round trip: parsing the canonical spelling of a 128-bit value returns
the value. -/
theorem uuidFromChars_canonicalWith {f : Nat → Char} (hf : goodHexFn f)
    {n : Nat} (hn : n < 2 ^ 128) :
    uuidFromChars (uuidCanonicalWith f n) = some n := by
  have h0 : (0 : Int) ≤ (n : Int) := Int.natCast_nonneg n
  have h1 : (n : Int) < 2 ^ 128 := by exact_mod_cast hn
  rw [uuidFromChars]
  simp only [uuidNormalize_canonical hf, length_uuidDigitGroups,
    pyIntHex16_digits hf hn, if_pos rfl, if_pos (And.intro h0 h1)]
  simp

/-- `EventId.from_string` round-trips on canonical UUID strings. -/
theorem from_string_canonical {n : Nat} (hn : n < 2 ^ 128) :
    EventId.from_string (uuidCanonicalString n) = some ⟨n⟩ := by
  rw [EventId.from_string,
    show (uuidCanonicalString n).data = uuidCanonicalWith lowerHexChar n from rfl,
    uuidFromChars_canonicalWith goodHexFn_lower hn]
  rfl

/-! ## Lemmas: non-canonical accepted spellings -/

theorem uuidFromChars_of_normalize {l : List Char} {f : Nat → Char}
    (hf : goodHexFn f) {n : Nat} (hn : n < 2 ^ 128)
    (hl : uuidNormalize l = uuidNormalize (uuidCanonicalWith f n)) :
    uuidFromChars l = some n := by
  have h0 : (0 : Int) ≤ (n : Int) := Int.natCast_nonneg n
  have h1 : (n : Int) < 2 ^ 128 := by exact_mod_cast hn
  rw [uuidFromChars]
  simp only [hl, uuidNormalize_canonical hf, length_uuidDigitGroups,
    pyIntHex16_digits hf hn, if_pos rfl, if_pos (And.intro h0 h1)]
  simp

theorem not_u_mem_canonical {f : Nat → Char} (hf : goodHexFn f) (n : Nat) :
    'u' ∉ uuidCanonicalWith f n := by
  intro hm
  rcases mem_uuidCanonicalWith hm with h | ⟨k, hk, hke⟩
  · exact absurd h (by decide)
  · exact (hf k hk).2.2.1 hke.symm

theorem isBraceChar_canonical_false {f : Nat → Char} (hf : goodHexFn f)
    (n : Nat) : ∀ c ∈ uuidCanonicalWith f n, isBraceChar c = false := by
  intro c hc
  rcases mem_uuidCanonicalWith hc with h | ⟨k, hk, hke⟩
  · subst h; decide
  · subst hke
    obtain ⟨-, -, -, h4, h5, -⟩ := hf k hk
    simp [isBraceChar, h4, h5]

theorem length_uuidCanonicalWith (f : Nat → Char) (n : Nat) :
    (uuidCanonicalWith f n).length = 36 := by
  simp [uuidCanonicalWith, length_toHexDigitsWith]

theorem uuidCanonicalWith_ne_nil (f : Nat → Char) (n : Nat) :
    uuidCanonicalWith f n ≠ [] := by
  intro h
  have hl := length_uuidCanonicalWith f n
  rw [h] at hl
  simp at hl

theorem removeUrn_cons_ne {c : Char} (hc : c ≠ 'u') (l : List Char) :
    removeUrn (c :: l) = c :: removeUrn l := by
  rw [removeUrn_cons, if_neg fun hand => hc hand.1]

theorem removeUrn_cons_of_take_ne {c : Char} {l : List Char}
    (h : l.take 3 ≠ ['r', 'n', ':']) : removeUrn (c :: l) = c :: removeUrn l := by
  rw [removeUrn_cons, if_neg fun hand => h hand.2]

theorem removeUrn_urn (l : List Char) :
    removeUrn ('u' :: 'r' :: 'n' :: ':' :: l) = removeUrn l := rfl

theorem removeUuid_uuid (l : List Char) :
    removeUuid ('u' :: 'u' :: 'i' :: 'd' :: ':' :: l) = removeUuid l := rfl

/-- `replace("urn:", "")` leaves a spelling that merely starts with the
`uuid:` mark unchanged. -/
theorem removeUrn_uuidMark {l : List Char} (hl : 'u' ∉ l) :
    removeUrn ('u' :: 'u' :: 'i' :: 'd' :: ':' :: l) =
      'u' :: 'u' :: 'i' :: 'd' :: ':' :: l := by
  have h1 : ('u' :: 'i' :: 'd' :: ':' :: l).take 3 ≠ ['r', 'n', ':'] := by simp
  have h2 : ('i' :: 'd' :: ':' :: l).take 3 ≠ ['r', 'n', ':'] := by simp
  rw [removeUrn_cons_of_take_ne h1, removeUrn_cons_of_take_ne h2,
    @removeUrn_cons_ne 'i' (by decide) ('d' :: ':' :: l),
    @removeUrn_cons_ne 'd' (by decide) (':' :: l),
    @removeUrn_cons_ne ':' (by decide) l, removeUrn_eq_self hl]

theorem stripLeftWhile_cons_true {p : Char → Bool} {c : Char}
    (h : p c = true) (l : List Char) :
    stripLeftWhile p (c :: l) = stripLeftWhile p l := by
  rw [stripLeftWhile, if_pos h]

/-- Normalization ignores surrounding curly braces. -/
theorem uuidNormalize_braced {f : Nat → Char} (hf : goodHexFn f) (n : Nat) :
    uuidNormalize ('\x7b' :: (uuidCanonicalWith f n ++ ['\x7d'])) =
      uuidNormalize (uuidCanonicalWith f n) := by
  have hu := not_u_mem_canonical hf n
  have hb := isBraceChar_canonical_false hf n
  have hu2 : 'u' ∉ '\x7b' :: (uuidCanonicalWith f n ++ ['\x7d']) := by
    intro hm
    rcases List.mem_cons.mp hm with he | hm
    · exact absurd he (by decide)
    rcases List.mem_append.mp hm with hm | hm
    · exact hu hm
    · exact absurd (List.mem_singleton.mp hm) (by decide)
  have hstrip : stripEnds isBraceChar ('\x7b' :: (uuidCanonicalWith f n ++ ['\x7d'])) =
      uuidCanonicalWith f n := by
    rw [stripEnds, stripLeftWhile_cons_true (by decide),
      stripLeftWhile_append_eq_self (uuidCanonicalWith_ne_nil f n) hb,
      List.reverse_append,
      show (['\x7d'] : List Char).reverse ++ (uuidCanonicalWith f n).reverse =
        '\x7d' :: (uuidCanonicalWith f n).reverse from by simp,
      stripLeftWhile_cons_true (by decide),
      stripLeftWhile_eq_self fun c hc => hb c (List.mem_reverse.mp hc),
      List.reverse_reverse]
  rw [uuidNormalize, uuidNormalize, removeUrn_eq_self hu2, removeUuid_eq_self hu2,
    removeUrn_eq_self hu, removeUuid_eq_self hu, hstrip, stripEnds_eq_self hb]

/-- Normalization ignores a leading `urn:uuid:` mark. -/
theorem uuidNormalize_urn {f : Nat → Char} (hf : goodHexFn f) (n : Nat) :
    uuidNormalize ('u' :: 'r' :: 'n' :: ':' :: 'u' :: 'u' :: 'i' :: 'd' :: ':' ::
        uuidCanonicalWith f n) =
      uuidNormalize (uuidCanonicalWith f n) := by
  have hu := not_u_mem_canonical hf n
  rw [uuidNormalize, uuidNormalize, removeUrn_urn, removeUrn_uuidMark hu,
    removeUuid_uuid, removeUrn_eq_self hu, removeUuid_eq_self hu]

/-- Normalizing the uppercase canonical spelling gives the uppercase digit
run, which parses to the same value as the lowercase spelling. -/
theorem uuidFromChars_upper {n : Nat} (hn : n < 2 ^ 128) :
    uuidFromChars (uuidCanonicalWith upperHexChar n) = some n :=
  uuidFromChars_canonicalWith goodHexFn_upper hn

/-! ## Lemmas: decimal rendering -/

theorem lowerHexChar_ne_dot : ∀ k, k < 16 → lowerHexChar k ≠ '.' := by
  unfold lowerHexChar; decide

theorem mem_natToCharsAux {fuel : Nat} : ∀ {n : Nat} {c : Char},
    c ∈ natToCharsAux n fuel → ∃ k, k < 10 ∧ c = lowerHexChar k := by
  induction fuel with
  | zero => intro n c h; simp [natToCharsAux] at h
  | succ fuel ih =>
    intro n c h
    rw [natToCharsAux] at h
    by_cases h10 : n < 10
    · rw [if_pos h10] at h
      rcases List.mem_singleton.mp h with rfl
      exact ⟨n, h10, rfl⟩
    · rw [if_neg h10] at h
      rcases List.mem_append.mp h with hm | hm
      · exact ih hm
      · rcases List.mem_singleton.mp hm with rfl
        exact ⟨n % 10, Nat.mod_lt _ (by omega), rfl⟩

theorem mem_natToChars {n : Nat} {c : Char} (h : c ∈ natToChars n) :
    ∃ k, k < 10 ∧ c = lowerHexChar k := mem_natToCharsAux h

/-! ## Lemmas: cache operations -/

theorem find?_filter {α : Type} (l : List α) (p q : α → Bool)
    (h : ∀ x, p x = true → q x = true) : (l.filter q).find? p = l.find? p := by
  induction l with
  | nil => rfl
  | cons a l ih =>
    by_cases hq : q a = true
    · rw [List.filter_cons_of_pos hq]
      by_cases hp : p a = true
      · rw [List.find?_cons_of_pos _ hp, List.find?_cons_of_pos _ hp]
      · rw [List.find?_cons_of_neg _ (by simpa using hp),
          List.find?_cons_of_neg _ (by simpa using hp), ih]
    · have hp : ¬ p a = true := fun hp => hq (h a hp)
      rw [List.filter_cons_of_neg (by simpa using hq), ih,
        List.find?_cons_of_neg _ (by simpa using hp)]

/-- Reading a key after invalidating a (possibly different) key. -/
theorem cacheGet_invalidate (c : Cache) (k0 k : String) :
    cacheGet (cacheInvalidate c k0) k =
      if k = k0 then none else cacheGet c k := by
  by_cases hk : k = k0
  · subst hk
    rw [if_pos rfl, cacheGet, cacheInvalidate]
    rw [show ((c.filter fun p => p.1 != k).find? fun p => p.1 == k) = none from ?_]
    · rfl
    · apply List.find?_eq_none.mpr
      intro x hx hpx
      have hmem := List.mem_filter.mp hx
      have h2 := hmem.2
      simp only [bne_iff_ne, ne_eq, decide_eq_true_eq] at h2
      exact h2 (by simpa using hpx)
  · rw [if_neg hk, cacheGet, cacheGet, cacheInvalidate,
      find?_filter c (fun p => p.1 == k) (fun p => p.1 != k0)
        (fun x hx => by
          simp only [beq_iff_eq] at hx
          simp only [bne_iff_ne, ne_eq, decide_eq_true_eq]
          rw [hx]; exact hk)]

/-! ## Witness fixtures -/

/-- A concrete event used by the witnesses. -/
def wEvent : Event :=
  { id := ⟨0⟩, name := "a", description := "b", location := "c",
    image_url := none, created_at := 0, updated_at := 0 }

/-- A second concrete event (same id, updated fields). -/
def wEventUpd : Event :=
  { id := ⟨0⟩, name := "d", description := "b", location := "c",
    image_url := none, created_at := 0, updated_at := 1 }

/-- A third concrete event with a later creation time. -/
def wEventB : Event :=
  { id := ⟨1⟩, name := "e", description := "b", location := "c",
    image_url := none, created_at := 1, updated_at := 1 }

/-- The canonical string of the zero UUID. -/
def wZeroStr : String := "00000000-0000-0000-0000-000000000000"

/-! ## Claims -/

/-- C1: `EventService.get_event(raw_id)` fails with a typed error of code
`INVALID_EVENT_ID` when `raw_id` is not accepted by the UUID parser; when
the id parses but the store has no matching event (and the cache holds no
entry for the event key), it fails with code `EVENT_NOT_FOUND`; when a
matching event exists (and the cache holds no entry), it returns exactly
that event. -/
theorem C1_get_event_cases :
    (∀ (raw_id : String) (store : EventStore) (cache : Cache),
      EventId.from_string raw_id = none →
        ∃ err, (EventService.get_event raw_id store cache).1 = .error err ∧
          err.code = .INVALID_EVENT_ID) ∧
    (∀ (raw_id : String) (i : EventId) (store : EventStore) (cache : Cache),
      EventId.from_string raw_id = some i →
        cacheGet cache (eventKey i) = none →
        store.get_event i = none →
        ∃ err, (EventService.get_event raw_id store cache).1 = .error err ∧
          err.code = .EVENT_NOT_FOUND) ∧
    (∀ (raw_id : String) (i : EventId) (store : EventStore) (cache : Cache)
      (e : Event),
      EventId.from_string raw_id = some i →
        cacheGet cache (eventKey i) = none →
        store.get_event i = some e →
        (EventService.get_event raw_id store cache).1 = .ok e) := by
  refine ⟨?_, ?_, ?_⟩
  · intro raw_id store cache h
    simp only [EventService.get_event, h]
    exact ⟨_, rfl, rfl⟩
  · intro raw_id i store cache hp hc hs
    simp only [EventService.get_event, hp, hc, hs]
    exact ⟨_, rfl, rfl⟩
  · intro raw_id i store cache e hp hc hs
    simp only [EventService.get_event, hp, hc, hs]

set_option maxRecDepth 20000 in
theorem C1_get_event_cases_witness :
    (∃ err, (EventService.get_event "not-a-uuid" (mkStore [] []) []).1 = .error err ∧
      err.code = .INVALID_EVENT_ID) ∧
    (∃ err, (EventService.get_event wZeroStr (mkStore [] []) []).1 = .error err ∧
      err.code = .EVENT_NOT_FOUND) ∧
    (EventService.get_event wZeroStr (mkStore [wEvent] []) []).1 = .ok wEvent := by
  refine ⟨C1_get_event_cases.1 "not-a-uuid" (mkStore [] []) [] (by decide),
    C1_get_event_cases.2.1 wZeroStr ⟨0⟩ (mkStore [] []) [] (by decide) rfl rfl,
    C1_get_event_cases.2.2 wZeroStr ⟨0⟩ (mkStore [wEvent] []) [] wEvent
      (by decide) rfl (by decide)⟩

/-- C2: for a syntactically valid id, `get_sessions_for_event` fails with a
typed error of code `EVENT_NOT_FOUND` whenever `Store.event_exists` is
false (whatever the cache holds); when the event exists but has zero
sessions (and the cache holds no entry for the sessions key), the call
succeeds with the empty sequence, not an error. -/
theorem C2_get_sessions_cases :
    (∀ (raw_id : String) (i : EventId) (store : EventStore) (cache : Cache),
      EventId.from_string raw_id = some i →
        store.event_exists i = false →
        ∃ err, (EventService.get_sessions_for_event raw_id store cache).1 =
          .error err ∧ err.code = .EVENT_NOT_FOUND) ∧
    (∀ (raw_id : String) (i : EventId) (store : EventStore) (cache : Cache),
      EventId.from_string raw_id = some i →
        store.event_exists i = true →
        store.get_sessions_for_event i = [] →
        cacheGet cache (sessionsKey i) = none →
        (EventService.get_sessions_for_event raw_id store cache).1 = .ok []) := by
  constructor
  · intro raw_id i store cache hp he
    simp only [EventService.get_sessions_for_event, hp, he]
    exact ⟨_, rfl, rfl⟩
  · intro raw_id i store cache hp he hs hc
    simp only [EventService.get_sessions_for_event, hp, he, hc, hs, if_true]

set_option maxRecDepth 20000 in
theorem C2_get_sessions_cases_witness :
    (∃ err, (EventService.get_sessions_for_event wZeroStr (mkStore [] []) []).1 =
      .error err ∧ err.code = .EVENT_NOT_FOUND) ∧
    (EventService.get_sessions_for_event wZeroStr (mkStore [wEvent] []) []).1 =
      .ok [] := by
  exact ⟨C2_get_sessions_cases.1 wZeroStr ⟨0⟩ (mkStore [] []) [] (by decide) rfl,
    C2_get_sessions_cases.2 wZeroStr ⟨0⟩ (mkStore [wEvent] []) []
      (by decide) (by decide) rfl rfl⟩

/-- C3: the Invalidation Trigger for an Event with id `E` empties exactly
the cache keys `events:list` and `events:E`, and reading any other key is
unchanged. -/
theorem C3_invalidate_event_exact (E : EventId) (c : Cache) :
    cacheGet (invalidateEventTrigger E c) listKey = none ∧
    cacheGet (invalidateEventTrigger E c) (eventKey E) = none ∧
    ∀ k : String, k ≠ listKey → k ≠ eventKey E →
      cacheGet (invalidateEventTrigger E c) k = cacheGet c k := by
  refine ⟨?_, ?_, ?_⟩
  · rw [invalidateEventTrigger, cacheGet_invalidate]
    by_cases h : listKey = eventKey E
    · rw [if_pos h]
    · rw [if_neg h, cacheGet_invalidate, if_pos rfl]
  · rw [invalidateEventTrigger, cacheGet_invalidate, if_pos rfl]
  · intro k h1 h2
    rw [invalidateEventTrigger, cacheGet_invalidate, if_neg h2,
      cacheGet_invalidate, if_neg h1]

theorem C3_invalidate_event_exact_witness :
    cacheGet (invalidateEventTrigger ⟨0⟩ [("x", .eventListV [])]) listKey = none ∧
    cacheGet (invalidateEventTrigger ⟨0⟩ [("x", .eventListV [])]) (eventKey ⟨0⟩) =
      none ∧
    cacheGet (invalidateEventTrigger ⟨0⟩ [("x", .eventListV [])]) "x" =
      cacheGet [("x", .eventListV [])] "x" := by
  obtain ⟨h1, h2, h3⟩ := C3_invalidate_event_exact ⟨0⟩ [("x", .eventListV [])]
  exact ⟨h1, h2, h3 "x" (by decide) (by decide)⟩

/-- C4: after `get_event` has populated the cache from some store state,
the Event is updated in the store and the Invalidation Trigger fires; the
next `get_event` for the same id returns the updated event, never the
cached one (for any prior cache contents). -/
theorem C4_read_after_invalidation (s0 s1 : EventStore) (c0 : Cache)
    (i : EventId) (eNew : Event) (hi : i.value < 2 ^ 128)
    (hs : s1.get_event i = some eNew) :
    (EventService.get_event (uuidCanonicalString i.value) s1
      (invalidateEventTrigger i
        (EventService.get_event (uuidCanonicalString i.value) s0 c0).2)).1 =
      .ok eNew := by
  have hp : EventId.from_string (uuidCanonicalString i.value) = some i := by
    rw [from_string_canonical hi]
  have hc : ∀ c1 : Cache,
      cacheGet (invalidateEventTrigger i c1) (eventKey i) = none := by
    intro c1
    rw [invalidateEventTrigger, cacheGet_invalidate, if_pos rfl]
  generalize (EventService.get_event (uuidCanonicalString i.value) s0 c0).2 = c1
  simp only [EventService.get_event, hp, hc c1, hs]

set_option maxRecDepth 20000 in
theorem C4_read_after_invalidation_witness :
    (EventService.get_event (uuidCanonicalString 0) (mkStore [wEventUpd] [])
      (invalidateEventTrigger ⟨0⟩
        (EventService.get_event (uuidCanonicalString 0) (mkStore [wEvent] [])
          []).2)).1 = .ok wEventUpd := by
  exact C4_read_after_invalidation (mkStore [wEvent] []) (mkStore [wEventUpd] [])
    [] ⟨0⟩ wEventUpd (by decide) (by decide)

/-- C5: `list_events` on the empty store returns the empty sequence; on a
store holding events `A` (created at `t1`) and `B` (created at `t2 > t1`),
in either insertion order, it returns `[B, A]` — `created_at` descending. -/
theorem C5_list_events_order (A B : Event) (h : A.created_at < B.created_at) :
    (EventService.list_events (mkStore [] []) []).1 = .ok [] ∧
    (EventService.list_events (mkStore [A, B] []) []).1 = .ok [B, A] ∧
    (EventService.list_events (mkStore [B, A] []) []).1 = .ok [B, A] := by
  have hBA : ¬ B.created_at ≤ A.created_at := by omega
  have hAB : A.created_at ≤ B.created_at := by omega
  have hsort1 : sortByCreatedDesc [A, B] = [B, A] := by
    simp only [sortByCreatedDesc, List.foldr, insertByCreatedDesc, if_neg hBA]
  have hsort2 : sortByCreatedDesc [B, A] = [B, A] := by
    simp only [sortByCreatedDesc, List.foldr, insertByCreatedDesc, if_pos hAB]
  refine ⟨rfl, ?_, ?_⟩
  · rw [show (EventService.list_events (mkStore [A, B] []) []).1 =
      .ok (sortByCreatedDesc [A, B]) from rfl, hsort1]
  · rw [show (EventService.list_events (mkStore [B, A] []) []).1 =
      .ok (sortByCreatedDesc [B, A]) from rfl, hsort2]

theorem C5_list_events_order_witness :
    (EventService.list_events (mkStore [] []) []).1 = .ok [] ∧
    (EventService.list_events (mkStore [wEvent, wEventB] []) []).1 =
      .ok [wEventB, wEvent] ∧
    (EventService.list_events (mkStore [wEventB, wEvent] []) []).1 =
      .ok [wEventB, wEvent] :=
  C5_list_events_order wEvent wEventB (by decide)

/-- C6: `Money(amount)` fails with the range error for every amount `< 0`;
for every amount `≥ 0` it succeeds and the string rendering consists of an
integer part, a point, and exactly two fractional digit characters;
`Money(3)` renders as `"3.00"`. -/
theorem C6_money_range_and_format (q : ℚ) :
    (q < 0 → Money.make q = .error "Money amount cannot be negative") ∧
    (0 ≤ q → Money.make q = .ok ⟨q⟩ ∧
      ∃ ip fr : List Char, Money.toString ⟨q⟩ = String.mk (ip ++ '.' :: fr) ∧
        fr.length = 2 ∧ (∀ c ∈ fr, c ≠ '.') ∧ ∀ c ∈ ip, c ≠ '.') ∧
    Money.make 3 = .ok ⟨3⟩ ∧ Money.toString ⟨3⟩ = "3.00" := by
  refine ⟨?_, ?_, ?_, ?_⟩
  · intro h
    rw [Money.make, if_pos h]
  · intro h
    refine ⟨by rw [Money.make, if_neg (not_lt.mpr h)],
      natToChars ((roundHalfEven (q * 100)).toNat / 100),
      [lowerHexChar ((roundHalfEven (q * 100)).toNat / 10 % 10),
        lowerHexChar ((roundHalfEven (q * 100)).toNat % 10)], rfl, rfl, ?_, ?_⟩
    · intro c hc
      rcases List.mem_cons.mp hc with rfl | hc
      · exact lowerHexChar_ne_dot _ (by omega)
      · rcases List.mem_singleton.mp hc with rfl
        exact lowerHexChar_ne_dot _ (by omega)
    · intro c hc
      obtain ⟨k, hk, rfl⟩ := mem_natToChars hc
      exact lowerHexChar_ne_dot _ (by omega)
  · rw [Money.make, if_neg (by norm_num)]
  · have h300 : (3 : ℚ) * 100 = 300 := by norm_num
    have hf : ((300 : ℚ)).floor = 300 := by
      simp [Rat.floor]
    have hr : roundHalfEven ((3 : ℚ) * 100) = 300 := by
      simp only [roundHalfEven, h300, hf]
      norm_num
    have hts : Money.toString ⟨3⟩ =
        String.mk (natToChars ((roundHalfEven ((3 : ℚ) * 100)).toNat / 100) ++
          '.' :: [lowerHexChar ((roundHalfEven ((3 : ℚ) * 100)).toNat / 10 % 10),
            lowerHexChar ((roundHalfEven ((3 : ℚ) * 100)).toNat % 10)]) := rfl
    rw [hts, hr]
    decide

theorem C6_money_range_and_format_witness :
    Money.make (-1) = .error "Money amount cannot be negative" ∧
    (Money.make 3 = .ok ⟨3⟩ ∧
      ∃ ip fr : List Char, Money.toString ⟨3⟩ = String.mk (ip ++ '.' :: fr) ∧
        fr.length = 2 ∧ (∀ c ∈ fr, c ≠ '.') ∧ ∀ c ∈ ip, c ≠ '.') ∧
    Money.make 3 = .ok ⟨3⟩ ∧ Money.toString ⟨3⟩ = "3.00" :=
  ⟨(C6_money_range_and_format (-1)).1 (by norm_num),
    (C6_money_range_and_format 3).2.1 (by norm_num),
    (C6_money_range_and_format 3).2.2⟩

/-- C7: `EventId.from_string` fails for every string the UUID parser does
not accept, and round-trips on valid UUID strings: parsing the canonical
spelling of any 128-bit value yields the identifier wrapping exactly that
value. -/
theorem C7_from_string_roundtrip :
    (∀ s : String, uuidAccepted s = false → EventId.from_string s = none) ∧
    (∀ n : Nat, n < 2 ^ 128 →
      EventId.from_string (uuidCanonicalString n) = some ⟨n⟩) := by
  constructor
  · intro s h
    rw [uuidAccepted] at h
    rw [EventId.from_string]
    cases hu : uuidFromChars s.data
    · rfl
    · rw [hu] at h
      simp at h
  · exact fun n hn => from_string_canonical hn

set_option maxRecDepth 20000 in
theorem C7_from_string_roundtrip_witness :
    EventId.from_string "not-a-uuid" = none ∧
    EventId.from_string (uuidCanonicalString 0) = some ⟨0⟩ :=
  ⟨C7_from_string_roundtrip.1 "not-a-uuid" (by decide),
    C7_from_string_roundtrip.2 0 (by norm_num)⟩

/-- C8: the message of the `EVENT_NOT_FOUND` domain error is the same
constant user-safe text for every event id — the f-string in the source
has no placeholder — so it embeds neither the id nor any store-internal
detail. -/
theorem C8_message_constant (a b : String) :
    eventNotFoundMessage a = eventNotFoundMessage b ∧
    eventNotFoundMessage a = "Event not found" := ⟨rfl, rfl⟩

/-- C9 counterexample: `EventNotFoundError("deadbeef")` does not raise
`FrozenInstanceError`; construction succeeds, with `event_id` bound on the
instance. -/
theorem C9_frozen_counterexample :
    eventNotFoundNew "deadbeef" ≠ .error .frozenInstanceError ∧
    eventNotFoundNew "deadbeef" =
      .ok [("event_id", .strV "deadbeef"), ("message", .strV "Event not found"),
        ("code", .codeV .EVENT_NOT_FOUND)] := by
  have h : eventNotFoundNew "deadbeef" =
      .ok [("event_id", .strV "deadbeef"), ("message", .strV "Event not found"),
        ("code", .codeV .EVENT_NOT_FOUND)] := rfl
  refine ⟨?_, h⟩
  rw [h]
  intro hc
  exact Except.noConfusion hc

/-- C9 (amended): the frozen-dataclass `__setattr__` raises only when the
instance's exact type is `DomainError` or the attribute is one of the
dataclass fields `code`/`message`; `self.event_id = event_id` on a subclass
instance is neither, so `EventNotFoundError` and `SessionNotFoundError`
construct successfully (as does `InvalidEventIdError`, which performs no
extra assignment). -/
theorem C9_error_constructors_succeed (event_id : String) :
    eventNotFoundNew event_id =
      .ok [("event_id", .strV event_id), ("message", .strV "Event not found"),
        ("code", .codeV .EVENT_NOT_FOUND)] ∧
    sessionNotFoundNew event_id =
      .ok [("event_id", .strV event_id),
        ("message", .strV "Sessions not found for event"),
        ("code", .codeV .SESSION_NOT_FOUND)] ∧
    invalidEventIdNew =
      .ok [("message", .strV "Invalid event ID format"),
        ("code", .codeV .INVALID_EVENT_ID)] :=
  ⟨rfl, rfl, rfl⟩

/-- C10: `EventId.from_string` accepts non-canonical spellings — uppercase
hexadecimal digits, surrounding curly braces, a `urn:uuid:` mark — and maps
each to the identifier obtained from the canonical lowercase spelling of
the same UUID; the braced spelling differs from the canonical string, so
the map is not injective over accepted inputs. -/
theorem C10_noncanonical_spellings (n : Nat) (hn : n < 2 ^ 128) :
    EventId.from_string (String.mk (uuidCanonicalWith upperHexChar n)) =
      EventId.from_string (uuidCanonicalString n) ∧
    EventId.from_string
        (String.mk ('\x7b' :: (uuidCanonicalWith lowerHexChar n ++ ['\x7d']))) =
      EventId.from_string (uuidCanonicalString n) ∧
    EventId.from_string (String.mk ('u' :: 'r' :: 'n' :: ':' :: 'u' :: 'u' ::
        'i' :: 'd' :: ':' :: uuidCanonicalWith lowerHexChar n)) =
      EventId.from_string (uuidCanonicalString n) ∧
    EventId.from_string (uuidCanonicalString n) = some ⟨n⟩ ∧
    String.mk ('\x7b' :: (uuidCanonicalWith lowerHexChar n ++ ['\x7d'])) ≠
      uuidCanonicalString n := by
  have hcan := from_string_canonical hn
  refine ⟨?_, ?_, ?_, hcan, ?_⟩
  · rw [hcan, EventId.from_string,
      show (String.mk (uuidCanonicalWith upperHexChar n)).data =
        uuidCanonicalWith upperHexChar n from rfl,
      uuidFromChars_upper hn]
    rfl
  · rw [hcan, EventId.from_string,
      show (String.mk ('\x7b' :: (uuidCanonicalWith lowerHexChar n ++
          ['\x7d']))).data =
        '\x7b' :: (uuidCanonicalWith lowerHexChar n ++ ['\x7d']) from rfl,
      uuidFromChars_of_normalize goodHexFn_lower hn
        (uuidNormalize_braced goodHexFn_lower n)]
    rfl
  · rw [hcan, EventId.from_string,
      show (String.mk ('u' :: 'r' :: 'n' :: ':' :: 'u' :: 'u' :: 'i' :: 'd' ::
          ':' :: uuidCanonicalWith lowerHexChar n)).data =
        'u' :: 'r' :: 'n' :: ':' :: 'u' :: 'u' :: 'i' :: 'd' :: ':' ::
          uuidCanonicalWith lowerHexChar n from rfl,
      uuidFromChars_of_normalize goodHexFn_lower hn
        (uuidNormalize_urn goodHexFn_lower n)]
    rfl
  · intro he
    rw [uuidCanonicalString] at he
    injection he with hd
    have hlen := congrArg List.length hd
    simp only [List.length_cons, List.length_append, List.length_singleton,
      length_uuidCanonicalWith] at hlen
    omega

theorem C10_noncanonical_spellings_witness :
    EventId.from_string (String.mk (uuidCanonicalWith upperHexChar 0)) =
      EventId.from_string (uuidCanonicalString 0) ∧
    EventId.from_string
        (String.mk ('\x7b' :: (uuidCanonicalWith lowerHexChar 0 ++ ['\x7d']))) =
      EventId.from_string (uuidCanonicalString 0) ∧
    EventId.from_string (String.mk ('u' :: 'r' :: 'n' :: ':' :: 'u' :: 'u' ::
        'i' :: 'd' :: ':' :: uuidCanonicalWith lowerHexChar 0)) =
      EventId.from_string (uuidCanonicalString 0) ∧
    EventId.from_string (uuidCanonicalString 0) = some ⟨0⟩ ∧
    String.mk ('\x7b' :: (uuidCanonicalWith lowerHexChar 0 ++ ['\x7d'])) ≠
      uuidCanonicalString 0 :=
  C10_noncanonical_spellings 0 (by norm_num)

end Holdfast
